import Mathlib

/-!
Verification of the room/session coordination core of the sports-watch-bet
server (backend/server.js, final iteration: room registry, membership,
chat relay, bet ledger, video-readiness signaling) as a shallow embedding.
JS `Map` state becomes an association list, socket handlers become pure
state-transition functions, and the periodic auto-settlement step and the
mutual-consent cancellation handler — whose server code is absent from the
source tree and is only called from the frontend — are modelled from the
specification, as marked in their doc comments.
-/

/-- Update the first element of a list satisfying `p` (JS `Array.find` then
in-place mutation of the found element). -/
def updateFirst (p : α → Bool) (f : α → α) : List α → List α
  | [] => []
  | x :: xs => if p x then f x :: xs else x :: updateFirst p f xs

/-- JS `Set.add`: insert an element if absent, keeping insertion order. -/
def insertIfAbsent [BEq α] (x : α) (l : List α) : List α :=
  if l.contains x then l else l ++ [x]

/-- A participant record as stored in `roomState` (`{ id, username, credits }`),
where `id` is the transient socket id. -/
structure User where
  id : String
  username : String
  credits : Nat
deriving Repr, DecidableEq

/-- The match descriptor a room is about (opaque to the coordination core;
only its external event id is ever consulted, via the score lookup). -/
structure MatchDesc where
  externalId : String
deriving Repr, DecidableEq

/-- Frozen result snapshot recorded on a settled bet (external status, final
score, winning pick). -/
structure BetResult where
  extStatus : String
  homeScore : Option Int
  awayScore : Option Int
  winningPick : String
deriving Repr, DecidableEq

/-- A wager record as stored in a room's `bets` array. `targetPick` and
`result` are `Option` because the JS object lacks these fields until accept /
settlement sets them; the two consent flags are absent (falsy) until a cancel
request sets them. -/
structure Bet where
  id : String
  status : String
  title : String
  creatorId : String
  creatorName : String
  targetId : String
  targetName : String
  creatorStake : Int
  targetStake : Int
  creatorPick : String
  targetPick : Option String
  winnerName : String
  result : Option BetResult
  agreeCreator : Bool
  agreeTarget : Bool
deriving Repr, DecidableEq

/-- Per-room state (`{ users, bets, match, videoAllowed, videoReady }`). -/
structure RoomSt where
  users : List User
  bets : List Bet
  matchInfo : Option MatchDesc
  videoAllowed : Bool
  videoReady : List String
deriving Repr, DecidableEq

/-- The room registry: the JS `Map` `roomState`, as an association list from
room key to room state (keys are unique in every reachable state). -/
abbrev ServerState := List (String × RoomSt)

/-- JS `Map.get`. -/
def rsGet (s : ServerState) (k : String) : Option RoomSt :=
  (s.find? (fun p => p.1 == k)).map (fun p => p.2)

/-- JS `Map.set`: replace the entry with this key, or append a new one. -/
def rsSet : ServerState → String → RoomSt → ServerState
  | [], k, v => [(k, v)]
  | (k', v') :: rest, k, v =>
      if k' == k then (k, v) :: rest else (k', v') :: rsSet rest k v

/-- JS `Map.delete`: remove the entry with this key. -/
def rsDelete : ServerState → String → ServerState
  | [], _ => []
  | (k', v') :: rest, k =>
      if k' == k then rest else (k', v') :: rsDelete rest k

/-- The room value `getOrCreateRoom` returns: the existing room, or a fresh
one whose `videoAllowed` flag is fixed from the room-key's shape
(`String(roomId).startsWith("private:")`). -/
def getOrCreateRoom (s : ServerState) (roomId : String) : RoomSt :=
  (rsGet s roomId).getD
    { users := [], bets := [], matchInfo := none,
      videoAllowed := roomId.startsWith "private:", videoReady := [] }

/-- The `joinRoom` handler: guard on non-empty `roomId`/`username`, create or
reuse the room, refresh the match descriptor (`match || st.match`), preserve
credits when the same username already exists in the room, drop any previous
record with this socket id, and append the (re)joined user. -/
def joinRoom (sock roomId username : String) (m : Option MatchDesc)
    (s : ServerState) : ServerState :=
  if roomId = "" ∨ username = "" then s
  else
    let st := getOrCreateRoom s roomId
    let m' := match m with
      | some mm => some mm
      | none => st.matchInfo
    let credits :=
      ((st.users.find? (fun u => u.username == username)).map
        (fun u => u.credits)).getD 1000
    let users' := (st.users.filter (fun u => u.id != sock)) ++
      [{ id := sock, username := username, credits := credits }]
    rsSet s roomId { st with matchInfo := m', users := users' }

/-- `removeFromRoom(roomId, socketId)`: filter the user out, drop the socket
from the readiness set, and — only when the user list shrank — delete the room
if it is now empty. Returns the updated registry and the `removed` flag. -/
def removeFromRoom (roomId sock : String) (s : ServerState) :
    ServerState × Bool :=
  match rsGet s roomId with
  | none => (s, false)
  | some st =>
      let users' := st.users.filter (fun u => u.id != sock)
      let st' := { st with users := users', videoReady := st.videoReady.erase sock }
      if users'.length ≠ st.users.length then
        let s' := rsSet s roomId st'
        (if users'.isEmpty then rsDelete s' roomId else s', true)
      else (rsSet s roomId st', false)

/-- The `leaveRoom` handler: guard on non-empty `roomId`, then `removeFromRoom`. -/
def leaveRoom (sock roomId : String) (s : ServerState) : ServerState :=
  if roomId = "" then s else (removeFromRoom roomId sock s).1

/-- The `chatMessage` handler never touches the room registry; its only effect
is the broadcast described by `chatBroadcast`. -/
def chatMessage (_sock _roomId _user _text : String) (s : ServerState) :
    ServerState := s

/-- The broadcast the `chatMessage` handler emits: dropped when `roomId` or
`text` is falsy (empty), otherwise `{ user, text }` verbatim to the room. -/
def chatBroadcast (roomId user text : String) :
    Option (String × String × String) :=
  if roomId = "" ∨ text = "" then none else some (roomId, user, text)

/-- The `video-ready` handler: only in an existing, media-capable room; adds
the socket id to the readiness set. -/
def videoReady (sock roomId : String) (s : ServerState) : ServerState :=
  match rsGet s roomId with
  | none => s
  | some st =>
      if !st.videoAllowed then s
      else rsSet s roomId { st with videoReady := insertIfAbsent sock st.videoReady }

/-- The `createBetOffer` handler: requires the room and both participants to
exist, then appends a fresh `pending` bet (target's stake mirrors the
creator's; target's pick is absent until accept). `newBetId` stands for the
generated `bet_${Date.now()}_...` identifier. -/
def createBetOffer (sock roomId targetUserId title : String) (stake : Int)
    (pick newBetId : String) (s : ServerState) : ServerState :=
  match rsGet s roomId with
  | none => s
  | some st =>
      match st.users.find? (fun u => u.id == sock),
            st.users.find? (fun u => u.id == targetUserId) with
      | some me, some target =>
          let newBet : Bet :=
            { id := newBetId
              status := "pending"
              title := if title = "" then "Bet" else title
              creatorId := me.id
              creatorName := me.username
              targetId := target.id
              targetName := target.username
              creatorStake := stake
              targetStake := stake
              creatorPick := pick
              targetPick := none
              winnerName := ""
              result := none
              agreeCreator := false
              agreeTarget := false }
          rsSet s roomId { st with bets := st.bets ++ [newBet] }
      | _, _ => s

/-- The field updates `acceptBetOffer` applies to the accepted bet: status
`active`, the target's pick (`targetPick || "ACCEPT"`) and stake
(`Number(targetStake || bet.targetStake)`, so a falsy `0` keeps the old stake). -/
def acceptUpdate (targetPick : String) (targetStake : Int) (b : Bet) : Bet :=
  { b with
    status := "active"
    targetPick := some (if targetPick = "" then "ACCEPT" else targetPick)
    targetStake := if targetStake = 0 then b.targetStake else targetStake }

/-- The `cancelBetOffer` handler's field update: status `cancelled`. -/
def cancelUpdate (b : Bet) : Bet :=
  { b with status := "cancelled" }

/-- The per-room update the `disconnect` handler applies before deleting empty
rooms: filter the socket out of the users and the readiness set. -/
def stripSock (sock : String) (st : RoomSt) : RoomSt :=
  { st with
    users := st.users.filter (fun u => u.id != sock)
    videoReady := st.videoReady.erase sock }

/-- The `acceptBetOffer` handler: the bet must exist and be `pending`, and the
caller's socket must be the bet's target; then it becomes `active`, recording
the target's pick and stake (`acceptUpdate`). -/
def acceptBetOffer (sock roomId betId targetPick : String) (targetStake : Int)
    (s : ServerState) : ServerState :=
  match rsGet s roomId with
  | none => s
  | some st =>
      match st.bets.find? (fun b => b.id == betId) with
      | none => s
      | some bet =>
          if bet.status ≠ "pending" then s
          else if sock ≠ bet.targetId then s
          else
            let bets' := updateFirst (fun b => b.id == betId)
              (acceptUpdate targetPick targetStake) st.bets
            rsSet s roomId { st with bets := bets' }

/-- The `cancelBetOffer` handler: the bet must exist and be `pending`, and the
caller's socket must be the bet's creator; then the bet becomes `cancelled`. -/
def cancelBetOffer (sock roomId betId : String) (s : ServerState) : ServerState :=
  match rsGet s roomId with
  | none => s
  | some st =>
      match st.bets.find? (fun b => b.id == betId) with
      | none => s
      | some bet =>
          if bet.status ≠ "pending" then s
          else if sock ≠ bet.creatorId then s
          else
            let bets' := updateFirst (fun b => b.id == betId) cancelUpdate st.bets
            rsSet s roomId { st with bets := bets' }

/-- The `disconnect` handler: for every room, filter the socket out of the
users and readiness set, then delete every room left with no users. -/
def onDisconnect (sock : String) (s : ServerState) : ServerState :=
  (s.map (fun p => (p.1, stripSock sock p.2))).filter (fun p => !p.2.users.isEmpty)

/-- The deterministic initiator rule (server side): of two socket ids, the
lexicographically smaller is the initiator. -/
def isInitiator (a b : String) : Bool := a < b

/-- The deterministic initiator rule (client side, final frontend iteration):
compare the local username with the peer's. -/
def shouldInitiate (username peerUsername : String) : Bool :=
  username < peerUsername

/-- The inbound event surface of the connection handler. -/
inductive Event where
  | join (sock roomId username : String) (m : Option MatchDesc)
  | leave (sock roomId : String)
  | chat (sock roomId user text : String)
  | vready (sock roomId : String)
  | createBet (sock roomId targetUserId title : String) (stake : Int)
      (pick newBetId : String)
  | acceptBet (sock roomId betId targetPick : String) (targetStake : Int)
  | cancelBet (sock roomId betId : String)
  | signal (sock toId : String)
  | disconnect (sock : String)
deriving Repr, DecidableEq

/-- Dispatch one inbound event to its handler (the `signal` relay never
touches the registry). -/
def applyEvent (s : ServerState) : Event → ServerState
  | .join sock roomId username m => joinRoom sock roomId username m s
  | .leave sock roomId => leaveRoom sock roomId s
  | .chat sock roomId user text => chatMessage sock roomId user text s
  | .vready sock roomId => videoReady sock roomId s
  | .createBet sock roomId targetUserId title stake pick newBetId =>
      createBetOffer sock roomId targetUserId title stake pick newBetId s
  | .acceptBet sock roomId betId targetPick targetStake =>
      acceptBetOffer sock roomId betId targetPick targetStake s
  | .cancelBet sock roomId betId => cancelBetOffer sock roomId betId s
  | .signal _ _ => s
  | .disconnect sock => onDisconnect sock s

/-- Apply a sequence of inbound events in order. -/
def applyEvents (s : ServerState) (es : List Event) : ServerState :=
  es.foldl applyEvent s

/-- The registry at process start: empty. -/
def initState : ServerState := []

/-- Credit balance of the (first) participant with this display name in this
room, when both exist. -/
def creditsOf (s : ServerState) (roomId username : String) : Option Nat :=
  (rsGet s roomId).bind fun st =>
    (st.users.find? (fun u => u.username == username)).map (fun u => u.credits)

/-- Status of the (first) bet with this id in this room, when both exist. -/
def statusOf (s : ServerState) (roomId betId : String) : Option String :=
  (rsGet s roomId).bind fun st =>
    (st.bets.find? (fun b => b.id == betId)).map (fun b => b.status)

/-- A normalized game record as returned by the score lookup adapter
(`{externalId, homeTeam, awayTeam, status, homeScore, awayScore}`); a `none`
score models a missing or non-numeric value. -/
structure GameRecord where
  externalId : String
  homeTeam : String
  awayTeam : String
  status : String
  homeScore : Option Int
  awayScore : Option Int
deriving Repr, DecidableEq

/-- Whether `needle` starts the list `hay` (character-level). -/
def startsWithL : List Char → List Char → Bool
  | [], _ => true
  | _ :: _, [] => false
  | a :: as, b :: bs => a == b && startsWithL as bs

/-- Whether `needle` occurs inside `hay` (character-level substring test). -/
def containsL (needle : List Char) : List Char → Bool
  | [] => needle.isEmpty
  | h :: t => startsWithL needle (h :: t) || containsL needle t

/-- Substring containment on strings. -/
def containsSub (hay needle : String) : Bool := containsL needle.data hay.data

/-- ASCII lower-casing of one character (JS `toLowerCase` on the ASCII range). -/
def lowerChar (c : Char) : Char :=
  if 'A' ≤ c ∧ c ≤ 'Z' then Char.ofNat (c.toNat + 32) else c

/-- ASCII lower-casing of a string. -/
def lowerStr (s : String) : String := String.mk (s.data.map lowerChar)

/-- Modelled from the spec: the settlement loop's finished-game recognition
(the server code implementing the auto-settlement loop is absent from the
source tree) — a status is finished when, case-insensitively, it contains a
"full time"/"final"/"closed" token or equals "FT". -/
def isFinishedStatus (status : String) : Bool :=
  let s := lowerStr status
  containsSub s "full time" || s == "ft" || containsSub s "final" || containsSub s "closed"

/-- Modelled from the spec: outcome computation (§4.3) — with both scores
numeric, the winning pick is `"{away} win"`, `"{home} win"` or `"draw"`;
with either score missing, no outcome is computable. -/
def computeOutcome (g : GameRecord) : Option String :=
  match g.homeScore, g.awayScore with
  | some h, some a =>
      if a > h then some (g.awayTeam ++ " win")
      else if h > a then some (g.homeTeam ++ " win")
      else some "draw"
  | _, _ => none

/-- Modelled from the spec: winner-name resolution (§4.3) — each party's pick
is compared with the computed outcome; creator-only-correct names the creator,
target-only-correct names the target, otherwise "Both right"/"Both wrong". -/
def resolveWinner (b : Bet) (outcome : String) : String :=
  let c := b.creatorPick == outcome
  let t := (b.targetPick.getD "") == outcome
  if c && !t then b.creatorName
  else if t && !c then b.targetName
  else if c && t then "Both right"
  else "Both wrong"

/-- Modelled from the spec: settling one active bet — record the winner-name,
freeze the result snapshot (external status, final score, winning pick), and
transition to `settled`. -/
def settleBet (g : GameRecord) (outcome : String) (b : Bet) : Bet :=
  { b with
    status := "settled"
    winnerName := resolveWinner b outcome
    result := some { extStatus := g.status, homeScore := g.homeScore,
                     awayScore := g.awayScore, winningPick := outcome } }

/-- Modelled from the spec: the per-bet action of one settlement pass — settle
a bet iff it is `active`, leave it unchanged otherwise. -/
def settleIfActive (g : GameRecord) (outcome : String) (b : Bet) : Bet :=
  if b.status == "active" then settleBet g outcome b else b

/-- Modelled from the spec: one room's step of the auto-settlement loop
(§4.4) — skip when the room has no `active` bet, no associated match, the
lookup fails, the match is not finished, or no outcome is computable;
otherwise settle every `active` bet, leaving other bets unchanged. -/
def settleRoom (lookup : MatchDesc → Option GameRecord) (st : RoomSt) : RoomSt :=
  if !(st.bets.any (fun b => b.status == "active")) then st
  else
    match st.matchInfo with
    | none => st
    | some m =>
        match lookup m with
        | none => st
        | some g =>
            if !(isFinishedStatus g.status) then st
            else
              match computeOutcome g with
              | none => st
              | some outcome =>
                  let bets' := st.bets.map (settleIfActive g outcome)
                  { st with bets := bets' }

/-- Modelled from the spec: one tick of the auto-settlement loop, applied to
every room of the registry with per-room isolation. -/
def settleTick (lookup : MatchDesc → Option GameRecord) (s : ServerState) :
    ServerState :=
  s.map (fun p => (p.1, settleRoom lookup p.2))

/-- Modelled from the spec: the `requestCancelBet` handler (the final server
iteration handling this event is absent from the source tree; the frontend
emits it with the requester's display name) — terminal bets and requests from
neither party are ignored; the requester's consent flag is recorded; a
`pending` bet cancels immediately; an `active` or `cancel_pending` bet cancels
once both sides have consented, and otherwise becomes/remains `cancel_pending`. -/
def requestCancelBet (requester : String) (b : Bet) : Bet :=
  if b.status == "cancelled" || b.status == "settled" then b
  else if requester != b.creatorName && requester != b.targetName then b
  else
    let b' := if requester == b.creatorName then { b with agreeCreator := true }
              else { b with agreeTarget := true }
    if b'.status == "pending" then { b' with status := "cancelled" }
    else if b'.agreeCreator && b'.agreeTarget then { b' with status := "cancelled" }
    else { b' with status := "cancel_pending" }

theorem rsGet_rsSet (s : ServerState) (k k' : String) (v : RoomSt) :
    rsGet (rsSet s k' v) k = if k = k' then some v else rsGet s k := by
  induction s with
  | nil =>
      by_cases h : k = k'
      · subst h; simp [rsSet, rsGet, List.find?]
      · have hb : (k' == k) = false := by
          simp only [beq_eq_false_iff_ne]; exact fun hh => h hh.symm
        simp [rsSet, rsGet, List.find?, hb, h]
  | cons p rest ih =>
      obtain ⟨a, b⟩ := p
      by_cases haq : a = k'
      · subst haq
        by_cases hk : k = a
        · subst hk; simp [rsSet, rsGet, List.find?]
        · have hb : (a == k) = false := by
            simp only [beq_eq_false_iff_ne]; exact fun hh => hk hh.symm
          simp [rsSet, rsGet, List.find?, hb, hk]
      · have hb' : (a == k') = false := by
          simp only [beq_eq_false_iff_ne]; exact haq
        by_cases hk : a = k
        · subst hk
          simp [rsSet, rsGet, List.find?, hb', fun hh : a = k' => haq hh]
        · have hb : (a == k) = false := by
            simp only [beq_eq_false_iff_ne]; exact hk
          by_cases hkk : k = k' <;>
            simp [rsSet, rsGet, List.find?, hb', hb, hkk] at ih ⊢ <;> exact ih

theorem rsGet_rsSet_self (s : ServerState) (k : String) (v : RoomSt) :
    rsGet (rsSet s k v) k = some v := by
  simp [rsGet_rsSet]

theorem rsGet_rsSet_ne (s : ServerState) (k k' : String) (v : RoomSt)
    (h : k ≠ k') : rsGet (rsSet s k' v) k = rsGet s k := by
  simp [rsGet_rsSet, h]

theorem rsGet_rsDelete_none (s : ServerState) (k k' : String)
    (h : rsGet s k = none) : rsGet (rsDelete s k') k = none := by
  induction s with
  | nil => simp [rsDelete, rsGet]
  | cons p rest ih =>
      obtain ⟨a, b⟩ := p
      simp only [rsGet, List.find?] at h
      by_cases hak : (a == k)
      · simp [hak] at h
      · simp only [hak] at h
        by_cases hk : a = k'
        · simpa [rsDelete, hk, rsGet] using h
        · have := ih (by simpa [rsGet] using h)
          simpa [rsDelete, hk, rsGet, List.find?, hak] using this

theorem mem_rsSet {s : ServerState} {k : String} {v : RoomSt} {q : String × RoomSt}
    (h : q ∈ rsSet s k v) : q ∈ s ∨ q = (k, v) := by
  induction s with
  | nil => simpa [rsSet] using h
  | cons p rest ih =>
      obtain ⟨a, b⟩ := p
      by_cases hak : a = k
      · subst hak
        simp only [rsSet, beq_self_eq_true, if_pos] at h
        rcases List.mem_cons.mp h with h | h
        · right; exact h
        · left; exact List.mem_cons_of_mem _ h
      · simp only [rsSet, beq_iff_eq, hak, if_neg, ite_false] at h
        rcases List.mem_cons.mp h with h | h
        · left; simp [h]
        · rcases ih h with h | h
          · left; exact List.mem_cons_of_mem _ h
          · right; exact h

theorem mem_rsDelete {s : ServerState} {k : String} {q : String × RoomSt}
    (h : q ∈ rsDelete s k) : q ∈ s := by
  induction s with
  | nil => simpa [rsDelete] using h
  | cons p rest ih =>
      obtain ⟨a, b⟩ := p
      by_cases hak : a = k
      · simp only [rsDelete, beq_iff_eq, hak, ite_true] at h
        exact List.mem_cons_of_mem _ h
      · simp only [rsDelete, beq_iff_eq, hak, ite_false] at h
        rcases List.mem_cons.mp h with h | h
        · simp [h]
        · exact List.mem_cons_of_mem _ (ih h)

theorem rsGet_mapVal (f : RoomSt → RoomSt) (s : ServerState) (k : String) :
    rsGet (s.map (fun p => (p.1, f p.2))) k = (rsGet s k).map f := by
  induction s with
  | nil => simp [rsGet]
  | cons p rest ih =>
      obtain ⟨a, b⟩ := p
      by_cases hak : (a == k) <;>
        simp [rsGet, List.find?, hak] at ih ⊢ <;> simpa using ih

theorem rsGet_mem {s : ServerState} {k : String} {st : RoomSt}
    (h : rsGet s k = some st) : (k, st) ∈ s := by
  induction s with
  | nil => simp [rsGet] at h
  | cons p rest ih =>
      obtain ⟨a, b⟩ := p
      by_cases hak : (a == k)
      · simp only [rsGet, List.find?, hak, Option.map_some] at h
        have : a = k := by simpa [beq_iff_eq] using hak
        subst this
        cases h
        exact List.mem_cons_self _ _
      · simp only [rsGet, List.find?, hak] at h
        exact List.mem_cons_of_mem _ (ih (by simpa [rsGet] using h))

theorem updateFirst_getElem (p : α → Bool) (f : α → α) (l : List α) (i : Nat) :
    (updateFirst p f l)[i]? = l[i]? ∨
    ∃ c, l[i]? = some c ∧ l.find? p = some c ∧
      (updateFirst p f l)[i]? = some (f c) := by
  induction l generalizing i with
  | nil => left; simp [updateFirst]
  | cons x xs ih =>
      by_cases hp : p x
      · cases i with
        | zero =>
            right
            exact ⟨x, by simp, by simp [List.find?, hp], by simp [updateFirst, hp]⟩
        | succ n => left; simp [updateFirst, hp]
      · cases i with
        | zero => left; simp [updateFirst, hp]
        | succ n =>
            rcases ih n with h | ⟨c, h1, h2, h3⟩
            · left; simpa [updateFirst, hp] using h
            · right
              refine ⟨c, by simpa using h1, ?_, by simpa [updateFirst, hp] using h3⟩
              simp [List.find?, hp, h2]

theorem updateFirst_getElem_of_ne (p : α → Bool) (f : α → α) (l : List α)
    (i : Nat) (b c : α) (hb : l[i]? = some b) (hc : l.find? p = some c)
    (hne : b ≠ c) : (updateFirst p f l)[i]? = some b := by
  rcases updateFirst_getElem p f l i with h | ⟨d, h1, h2, _⟩
  · rw [h, hb]
  · rw [hb] at h1
    rw [hc] at h2
    cases h1; cases h2
    exact absurd rfl hne

theorem find?_updateFirst (p : α → Bool) (f : α → α) (l : List α) (c : α)
    (hpf : ∀ a, p a = true → p (f a) = true)
    (h : l.find? p = some c) : (updateFirst p f l).find? p = some (f c) := by
  induction l with
  | nil => simp [List.find?] at h
  | cons x xs ih =>
      by_cases hp : p x
      · have hx : x = c := by simpa [List.find?, hp] using h
        subst hx
        simp [updateFirst, hp, List.find?, hpf x hp]
      · have h' : xs.find? p = some c := by simpa [List.find?, hp] using h
        simp [updateFirst, hp, List.find?, ih h']

/-- Invariant: every participant of every room carries the default credit
balance (no handler of this server iteration ever mutates credits). -/
def credOK (s : ServerState) : Prop :=
  ∀ q ∈ s, ∀ u ∈ (q : String × RoomSt).2.users, u.credits = 1000

theorem credOK_members {s : ServerState} (h : credOK s) (roomId : String) :
    ∀ u ∈ (getOrCreateRoom s roomId).users, u.credits = 1000 := by
  unfold getOrCreateRoom
  cases hrs : rsGet s roomId with
  | none => simp
  | some st0 =>
      intro u hu
      exact h _ (rsGet_mem hrs) u hu

theorem credOK_joinRoom (sock roomId username : String) (m : Option MatchDesc)
    {s : ServerState} (h : credOK s) :
    credOK (joinRoom sock roomId username m s) := by
  unfold joinRoom
  by_cases hg : roomId = "" ∨ username = ""
  · simpa [hg] using h
  · simp only [hg, if_false]
    intro q hq u hu
    rcases mem_rsSet hq with hmem | rfl
    · exact h q hmem u hu
    · simp only [List.mem_append, List.mem_singleton] at hu
      rcases hu with hu | rfl
      · exact credOK_members h roomId u (List.mem_filter.mp hu).1
      · cases hf : (getOrCreateRoom s roomId).users.find?
          (fun u => u.username == username) with
        | none => simp [hf]
        | some w =>
            simp only [hf, Option.map_some, Option.getD_some]
            exact credOK_members h roomId w (List.mem_of_find?_eq_some hf)

theorem credOK_rsSet {s : ServerState} (h : credOK s) (k : String)
    (v : RoomSt) (hv : ∀ u ∈ v.users, u.credits = 1000) : credOK (rsSet s k v) := by
  intro q hq u hu
  rcases mem_rsSet hq with hmem | rfl
  · exact h q hmem u hu
  · exact hv u hu

theorem credOK_removeFromRoom (roomId sock : String) {s : ServerState}
    (h : credOK s) : credOK (removeFromRoom roomId sock s).1 := by
  unfold removeFromRoom
  split
  · exact h
  · rename_i st hrs
    have hsub : ∀ u ∈ st.users.filter (fun u => u.id != sock), u.credits = 1000 :=
      fun u hu => h _ (rsGet_mem hrs) u (List.mem_filter.mp hu).1
    simp only
    split
    · split
      · intro q hq u hu
        rcases mem_rsSet (mem_rsDelete hq) with hmem | rfl
        · exact h q hmem u hu
        · exact hsub u hu
      · exact credOK_rsSet h _ _ hsub
    · exact credOK_rsSet h _ _ hsub

theorem credOK_applyEvent {s : ServerState} (h : credOK s) (e : Event) :
    credOK (applyEvent s e) := by
  cases e with
  | join sock roomId username m => exact credOK_joinRoom sock roomId username m h
  | leave sock roomId =>
      show credOK (leaveRoom sock roomId s)
      unfold leaveRoom
      split
      · exact h
      · exact credOK_removeFromRoom roomId sock h
  | chat sock roomId user text => exact h
  | vready sock roomId =>
      show credOK (videoReady sock roomId s)
      unfold videoReady
      split
      · exact h
      · rename_i st hrs
        split
        · exact h
        · exact credOK_rsSet h _ _ (fun u hu => h _ (rsGet_mem hrs) u hu)
  | createBet sock roomId targetUserId title stake pick newBetId =>
      show credOK (createBetOffer sock roomId targetUserId title stake pick newBetId s)
      unfold createBetOffer
      split
      · exact h
      · rename_i st hrs
        split
        · exact credOK_rsSet h _ _ (fun u hu => h _ (rsGet_mem hrs) u hu)
        · exact h
  | acceptBet sock roomId betId targetPick targetStake =>
      show credOK (acceptBetOffer sock roomId betId targetPick targetStake s)
      unfold acceptBetOffer
      split
      · exact h
      · rename_i st hrs
        split
        · exact h
        · split
          · exact h
          · split
            · exact h
            · exact credOK_rsSet h _ _ (fun u hu => h _ (rsGet_mem hrs) u hu)
  | cancelBet sock roomId betId =>
      show credOK (cancelBetOffer sock roomId betId s)
      unfold cancelBetOffer
      split
      · exact h
      · rename_i st hrs
        split
        · exact h
        · split
          · exact h
          · split
            · exact h
            · exact credOK_rsSet h _ _ (fun u hu => h _ (rsGet_mem hrs) u hu)
  | signal sock toId => exact h
  | disconnect sock =>
      show credOK (onDisconnect sock s)
      intro q hq u hu
      have hq' := (List.mem_filter.mp hq).1
      rcases List.mem_map.mp hq' with ⟨p, hps, rfl⟩
      exact h p hps u (List.mem_filter.mp hu).1

theorem credOK_applyEvents {s : ServerState} (h : credOK s) (es : List Event) :
    credOK (applyEvents s es) := by
  induction es generalizing s with
  | nil => simpa [applyEvents] using h
  | cons e es ih =>
      simpa [applyEvents] using ih (credOK_applyEvent h e)

theorem credOK_init : credOK initState := by
  intro q hq
  simp [initState] at hq

theorem creditsOf_joinRoom {s : ServerState} (h : credOK s)
    (sock roomId username : String) (m : Option MatchDesc)
    (hr : roomId ≠ "") (hu : username ≠ "") :
    creditsOf (joinRoom sock roomId username m s) roomId username = some 1000 := by
  unfold joinRoom creditsOf
  simp only [hr, hu, or_self, if_false]
  rw [rsGet_rsSet_self]
  simp only [Option.some_bind]
  rw [List.find?_append]
  cases hf : List.find? (fun u => u.username == username)
      ((getOrCreateRoom s roomId).users.filter (fun u => u.id != sock)) with
  | some w =>
      have hw : w.credits = 1000 :=
        credOK_members h roomId w
          (List.mem_filter.mp (List.mem_of_find?_eq_some hf)).1
      simp [hf, hw]
  | none =>
      simp only [hf, Option.none_or]
      cases hg : (getOrCreateRoom s roomId).users.find?
          (fun u => u.username == username) with
      | none => simp [List.find?, hg]
      | some w =>
          have hw : w.credits = 1000 :=
            credOK_members h roomId w (List.mem_of_find?_eq_some hg)
          simp [List.find?, hg, hw]

/-- C3: for every sequence of events (`es0` before the first join, `es1` —
which may include any number of disconnects — between the first join and the
reconnect), a participant's credit balance after rejoining a room under the
same display name equals its balance from the first join, and both equal the
default 1000: credits are never reset to a different value by reconnecting.
In this server iteration no handler ever mutates credits, so every balance is
the constant default. -/
theorem c3_credits_preserved_on_reconnect
    (es0 es1 : List Event) (sock1 sock2 roomId username : String)
    (m1 m2 : Option MatchDesc) (hr : roomId ≠ "") (hu : username ≠ "") :
    creditsOf (applyEvent (applyEvents (applyEvent (applyEvents initState es0)
        (.join sock1 roomId username m1)) es1) (.join sock2 roomId username m2))
        roomId username =
      creditsOf (applyEvent (applyEvents initState es0)
        (.join sock1 roomId username m1)) roomId username ∧
    creditsOf (applyEvent (applyEvents initState es0)
        (.join sock1 roomId username m1)) roomId username = some 1000 := by
  have h0 : credOK (applyEvents initState es0) :=
    credOK_applyEvents credOK_init es0
  have h1 : credOK (applyEvent (applyEvents initState es0)
      (.join sock1 roomId username m1)) := credOK_applyEvent h0 _
  have h2 : credOK (applyEvents (applyEvent (applyEvents initState es0)
      (.join sock1 roomId username m1)) es1) := credOK_applyEvents h1 es1
  have e1 : creditsOf (applyEvent (applyEvents initState es0)
      (.join sock1 roomId username m1)) roomId username = some 1000 :=
    creditsOf_joinRoom h0 sock1 roomId username m1 hr hu
  have e2 : creditsOf (applyEvent (applyEvents (applyEvent (applyEvents initState es0)
      (.join sock1 roomId username m1)) es1) (.join sock2 roomId username m2))
      roomId username = some 1000 :=
    creditsOf_joinRoom h2 sock2 roomId username m2 hr hu
  exact ⟨e2.trans e1.symm, e1⟩

/-- Witness for C3 at a concrete reconnect: "A" joins room "r" from socket
"s1", disconnects, and rejoins from socket "s2". -/
theorem c3_credits_preserved_on_reconnect_witness :
    ("r" : String) ≠ "" ∧ ("A" : String) ≠ "" ∧
    (creditsOf (applyEvent (applyEvents (applyEvent (applyEvents initState [])
        (.join "s1" "r" "A" none)) [.disconnect "s1"]) (.join "s2" "r" "A" none))
        "r" "A" =
      creditsOf (applyEvent (applyEvents initState [])
        (.join "s1" "r" "A" none)) "r" "A" ∧
    creditsOf (applyEvent (applyEvents initState [])
        (.join "s1" "r" "A" none)) "r" "A" = some 1000) :=
  ⟨by decide, by decide,
    c3_credits_preserved_on_reconnect [] [.disconnect "s1"] "s1" "s2" "r" "A"
      none none (by decide) (by decide)⟩

/-- The two bet-mutating inbound requests (accept and cancel). -/
def isBetReq : Event → Bool
  | .acceptBet _ _ _ _ _ => true
  | .cancelBet _ _ _ => true
  | _ => false

theorem acceptBetOffer_preserves_nonpending (sock roomId betId targetPick : String)
    (targetStake : Int) {s : ServerState} {rid : String} {st : RoomSt} {i : Nat}
    {b : Bet} (hrs : rsGet s rid = some st) (hb : st.bets[i]? = some b)
    (hnp : b.status ≠ "pending") :
    ∃ st', rsGet (acceptBetOffer sock roomId betId targetPick targetStake s) rid
      = some st' ∧ st'.bets[i]? = some b := by
  unfold acceptBetOffer
  split
  · exact ⟨st, hrs, hb⟩
  · rename_i st0 hrs0
    split
    · exact ⟨st, hrs, hb⟩
    · rename_i bet hfind
      split
      · exact ⟨st, hrs, hb⟩
      · split
        · exact ⟨st, hrs, hb⟩
        · rename_i hstat hsock
          have hpend : bet.status = "pending" := not_not.mp hstat
          by_cases hr : rid = roomId
          · subst hr
            rw [hrs] at hrs0
            cases hrs0
            refine ⟨_, rsGet_rsSet_self _ _ _, ?_⟩
            exact updateFirst_getElem_of_ne _ _ _ _ _ _ hb hfind
              (fun hbe => hnp (hbe ▸ hpend))
          · exact ⟨st, by rw [rsGet_rsSet_ne _ _ _ _ hr]; exact hrs, hb⟩

theorem cancelBetOffer_preserves_nonpending (sock roomId betId : String)
    {s : ServerState} {rid : String} {st : RoomSt} {i : Nat} {b : Bet}
    (hrs : rsGet s rid = some st) (hb : st.bets[i]? = some b)
    (hnp : b.status ≠ "pending") :
    ∃ st', rsGet (cancelBetOffer sock roomId betId s) rid = some st' ∧
      st'.bets[i]? = some b := by
  unfold cancelBetOffer
  split
  · exact ⟨st, hrs, hb⟩
  · rename_i st0 hrs0
    split
    · exact ⟨st, hrs, hb⟩
    · rename_i bet hfind
      split
      · exact ⟨st, hrs, hb⟩
      · split
        · exact ⟨st, hrs, hb⟩
        · rename_i hstat hsock
          have hpend : bet.status = "pending" := not_not.mp hstat
          by_cases hr : rid = roomId
          · subst hr
            rw [hrs] at hrs0
            cases hrs0
            refine ⟨_, rsGet_rsSet_self _ _ _, ?_⟩
            exact updateFirst_getElem_of_ne _ _ _ _ _ _ hb hfind
              (fun hbe => hnp (hbe ▸ hpend))
          · exact ⟨st, by rw [rsGet_rsSet_ne _ _ _ _ hr]; exact hrs, hb⟩

theorem betReq_preserves_nonpending {e : Event} (hbr : isBetReq e = true)
    {s : ServerState} {rid : String} {st : RoomSt} {i : Nat} {b : Bet}
    (hrs : rsGet s rid = some st) (hb : st.bets[i]? = some b)
    (hnp : b.status ≠ "pending") :
    ∃ st', rsGet (applyEvent s e) rid = some st' ∧ st'.bets[i]? = some b := by
  cases e with
  | acceptBet sock roomId betId targetPick targetStake =>
      exact acceptBetOffer_preserves_nonpending sock roomId betId targetPick
        targetStake hrs hb hnp
  | cancelBet sock roomId betId =>
      exact cancelBetOffer_preserves_nonpending sock roomId betId hrs hb hnp
  | join _ _ _ _ => simp [isBetReq] at hbr
  | leave _ _ => simp [isBetReq] at hbr
  | chat _ _ _ _ => simp [isBetReq] at hbr
  | vready _ _ => simp [isBetReq] at hbr
  | createBet _ _ _ _ _ _ _ => simp [isBetReq] at hbr
  | signal _ _ => simp [isBetReq] at hbr
  | disconnect _ => simp [isBetReq] at hbr

/-- C5: a bet in a terminal status (`cancelled` or `settled`) is frozen — no
sequence of accept or cancel requests changes its status or any other field
(the bet at the same position still exists, equal in every field). -/
theorem c5_terminal_bets_frozen (es : List Event)
    (hes : ∀ e ∈ es, isBetReq e = true) (s : ServerState) (rid : String)
    (st : RoomSt) (i : Nat) (b : Bet) (hrs : rsGet s rid = some st)
    (hb : st.bets[i]? = some b)
    (hterm : b.status = "cancelled" ∨ b.status = "settled") :
    ∃ st', rsGet (applyEvents s es) rid = some st' ∧ st'.bets[i]? = some b := by
  induction es generalizing s st with
  | nil => exact ⟨st, hrs, hb⟩
  | cons e es ih =>
      have hnp : b.status ≠ "pending" := by
        rcases hterm with h | h <;> simp [h]
      obtain ⟨st', h1, h2⟩ :=
        betReq_preserves_nonpending (hes e (List.mem_cons_self e es)) hrs hb hnp
      exact ih (fun e' he' => hes e' (List.mem_cons_of_mem _ he')) _ _ h1 h2

/-- Witness for C5: a concrete reachable room whose single bet is `cancelled`;
an accept attempt by the target and a cancel attempt by the creator leave it
untouched. -/
theorem c5_terminal_bets_frozen_witness :
    (∀ e ∈ ([.acceptBet "s2" "r" "bet1" "Away win" 50,
             .cancelBet "s1" "r" "bet1"] : List Event), isBetReq e = true) ∧
    (∃ st', rsGet (applyEvents (applyEvents initState [.join "s1" "r" "A" none,
        .join "s2" "r" "B" none,
        .createBet "s1" "r" "s2" "Derby" 100 "Home win" "bet1",
        .cancelBet "s1" "r" "bet1"])
        [.acceptBet "s2" "r" "bet1" "Away win" 50, .cancelBet "s1" "r" "bet1"]) "r"
        = some st' ∧
      st'.bets[0]? = some
        { id := "bet1"
          status := "cancelled"
          title := "Derby"
          creatorId := "s1"
          creatorName := "A"
          targetId := "s2"
          targetName := "B"
          creatorStake := 100
          targetStake := 100
          creatorPick := "Home win"
          targetPick := none
          winnerName := ""
          result := none
          agreeCreator := false
          agreeTarget := false }) :=
  ⟨by decide,
    c5_terminal_bets_frozen
      [.acceptBet "s2" "r" "bet1" "Away win" 50, .cancelBet "s1" "r" "bet1"]
      (by decide) _ "r" _ 0 _ rfl rfl (Or.inl rfl)⟩

/-- C6: `acceptBetOffer` is a silent no-op (the whole registry is unchanged)
whenever the caller is not the found bet's target, and it can change the state
at all only when the found bet is `pending` and the caller is its target. -/
theorem c6_accept_requires_target (s : ServerState)
    (sock roomId betId targetPick : String) (targetStake : Int) :
    (∀ st b, rsGet s roomId = some st →
      st.bets.find? (fun bb => bb.id == betId) = some b → sock ≠ b.targetId →
      acceptBetOffer sock roomId betId targetPick targetStake s = s) ∧
    (acceptBetOffer sock roomId betId targetPick targetStake s ≠ s →
      ∃ st b, rsGet s roomId = some st ∧
        st.bets.find? (fun bb => bb.id == betId) = some b ∧
        b.status = "pending" ∧ sock = b.targetId) := by
  constructor
  · intro st b hrs hf hne
    unfold acceptBetOffer
    rw [hrs]
    simp only [hf]
    by_cases hp : b.status ≠ "pending"
    · rw [if_pos hp]
    · rw [if_neg hp, if_pos hne]
  · intro hchg
    unfold acceptBetOffer at hchg
    split at hchg
    · exact absurd rfl hchg
    · rename_i st hrs
      split at hchg
      · exact absurd rfl hchg
      · rename_i bet hf
        split at hchg
        · exact absurd rfl hchg
        · rename_i hp
          split at hchg
          · exact absurd rfl hchg
          · rename_i ht
            exact ⟨st, bet, hrs, hf, not_not.mp hp, not_not.mp ht⟩

/-- Witness for C6: in a concrete room with a pending bet from "A" (socket
"s1") to "B" (socket "s2"), an accept attempt by the third party "s3" (and its
target check "s3" ≠ "s2") leaves the registry unchanged. -/
theorem c6_accept_requires_target_witness :
    ("s3" : String) ≠ "s2" ∧
    acceptBetOffer "s3" "r" "bet1" "Away win" 50
        (applyEvents initState [.join "s1" "r" "A" none, .join "s2" "r" "B" none,
          .join "s3" "r" "C" none,
          .createBet "s1" "r" "s2" "Derby" 100 "Home win" "bet1"]) =
      applyEvents initState [.join "s1" "r" "A" none, .join "s2" "r" "B" none,
        .join "s3" "r" "C" none,
        .createBet "s1" "r" "s2" "Derby" 100 "Home win" "bet1"] :=
  ⟨by decide,
    (c6_accept_requires_target _ "s3" "r" "bet1" "Away win" 50).1 _ _ rfl rfl
      (by decide)⟩

/-- C7 counterexample: in a concrete reachable room, the bet "bet1" is
`pending` with target socket "s2", yet "s2"'s cancel request is a no-op — the
bet stays `pending` instead of transitioning to `cancelled` as the claim
states for a cancel issued by the target. -/
theorem c7_counterexample :
    statusOf (applyEvents initState [.join "s1" "r" "A" none,
        .join "s2" "r" "B" none,
        .createBet "s1" "r" "s2" "Derby" 100 "Home win" "bet1"]) "r" "bet1" =
      some "pending" ∧
    ((rsGet (applyEvents initState [.join "s1" "r" "A" none,
        .join "s2" "r" "B" none,
        .createBet "s1" "r" "s2" "Derby" 100 "Home win" "bet1"]) "r").bind
      (fun st => (st.bets.find? (fun bb => bb.id == "bet1")).map
        (fun b => b.targetId)) = some "s2") ∧
    cancelBetOffer "s2" "r" "bet1"
        (applyEvents initState [.join "s1" "r" "A" none, .join "s2" "r" "B" none,
          .createBet "s1" "r" "s2" "Derby" 100 "Home win" "bet1"]) =
      applyEvents initState [.join "s1" "r" "A" none, .join "s2" "r" "B" none,
        .createBet "s1" "r" "s2" "Derby" 100 "Home win" "bet1"] ∧
    statusOf (cancelBetOffer "s2" "r" "bet1"
        (applyEvents initState [.join "s1" "r" "A" none, .join "s2" "r" "B" none,
          .createBet "s1" "r" "s2" "Derby" 100 "Home win" "bet1"])) "r" "bet1" =
      some "pending" := by
  refine ⟨by decide, by decide, by decide, by decide⟩

/-- C7 amended: a cancel request on a `pending` bet issued by the creator
immediately transitions it to `cancelled`; a cancel request by anyone else —
including the bet's target — is a silent no-op. -/
theorem c7_pending_cancel_creator_only (s : ServerState)
    (sock roomId betId : String) (st : RoomSt) (b : Bet)
    (hrs : rsGet s roomId = some st)
    (hf : st.bets.find? (fun bb => bb.id == betId) = some b)
    (hp : b.status = "pending") :
    (sock = b.creatorId →
      statusOf (cancelBetOffer sock roomId betId s) roomId betId =
        some "cancelled") ∧
    (sock ≠ b.creatorId → cancelBetOffer sock roomId betId s = s) := by
  constructor
  · intro hc
    unfold cancelBetOffer
    rw [hrs]
    simp only [hf]
    rw [if_neg (by simp [hp]), if_neg (by simp [hc])]
    unfold statusOf
    rw [rsGet_rsSet_self]
    simp only [Option.some_bind]
    have hupd : (updateFirst (fun bb => bb.id == betId) cancelUpdate
        st.bets).find? (fun bb => bb.id == betId) = some (cancelUpdate b) :=
      find?_updateFirst _ _ _ _ (fun a ha => by simpa [cancelUpdate] using ha) hf
    rw [hupd]
    simp [cancelUpdate]
  · intro hne
    unfold cancelBetOffer
    rw [hrs]
    simp only [hf]
    by_cases hsp : b.status ≠ "pending"
    · rw [if_pos hsp]
    · rw [if_neg hsp, if_pos hne]

/-- Witness for C7's amended theorem: the creator's socket "s1" cancels the
concrete pending bet at once. -/
theorem c7_pending_cancel_creator_only_witness :
    ("s1" : String) = "s1" ∧
    statusOf (cancelBetOffer "s1" "r" "bet1"
        (applyEvents initState [.join "s1" "r" "A" none, .join "s2" "r" "B" none,
          .createBet "s1" "r" "s2" "Derby" 100 "Home win" "bet1"])) "r" "bet1" =
      some "cancelled" :=
  ⟨rfl,
    (c7_pending_cancel_creator_only
      (applyEvents initState [.join "s1" "r" "A" none, .join "s2" "r" "B" none,
        .createBet "s1" "r" "s2" "Derby" 100 "Home win" "bet1"])
      "s1" "r" "bet1" _ _ rfl rfl rfl).1 rfl⟩

/-- Key-uniqueness of the registry (a JS `Map` holds each key once). -/
abbrev keysNodup (s : ServerState) : Prop := (s.map Prod.fst).Nodup

theorem rsGet_none_of_forall {s : ServerState} {k : String}
    (h : ∀ p ∈ s, p.1 ≠ k) : rsGet s k = none := by
  have hf : s.find? (fun p => p.1 == k) = none :=
    List.find?_eq_none.mpr (fun p hp => by simpa using h p hp)
  simp [rsGet, hf]

theorem mem_onDisconnect_keys {sock : String} {s : ServerState}
    {q : String × RoomSt} (h : q ∈ onDisconnect sock s) :
    ∃ p ∈ s, q.1 = p.1 := by
  unfold onDisconnect at h
  have h1 := (List.mem_filter.mp h).1
  rcases List.mem_map.mp h1 with ⟨p, hp, rfl⟩
  exact ⟨p, hp, rfl⟩

theorem rsGet_onDisconnect (sock : String) (s : ServerState) (roomId : String)
    (hnd : keysNodup s) (st : RoomSt) (hrs : rsGet s roomId = some st) :
    rsGet (onDisconnect sock s) roomId =
      if (st.users.filter (fun u => u.id != sock)).isEmpty then none
      else some (stripSock sock st) := by
  induction s generalizing roomId with
  | nil => simp [rsGet] at hrs
  | cons p rest ih =>
      obtain ⟨a, v⟩ := p
      have hnd2 : (a :: rest.map Prod.fst).Nodup := hnd
      have hna : a ∉ rest.map Prod.fst := (List.nodup_cons.mp hnd2).1
      have hnd' : keysNodup rest := (List.nodup_cons.mp hnd2).2
      by_cases hak : a = roomId
      · subst hak
        have hst : v = st := by
          simpa [rsGet, List.find?] using hrs
        subst hst
        have hrest : rsGet (onDisconnect sock rest) a = none := by
          apply rsGet_none_of_forall
          intro q hq
          rcases mem_onDisconnect_keys hq with ⟨p, hp, hqp⟩
          rw [hqp]
          intro hcon
          exact hna (hcon ▸ List.mem_map_of_mem Prod.fst hp)
        by_cases hemp : (v.users.filter (fun u => u.id != sock)).isEmpty
        · have hpred : (!(stripSock sock v).users.isEmpty) = false := by
            show (!(v.users.filter (fun u => u.id != sock)).isEmpty) = false
            rw [hemp]
            rfl
          unfold onDisconnect
          simp only [List.map_cons, List.filter_cons, hpred, Bool.false_eq_true,
            if_false]
          unfold onDisconnect at hrest
          rw [hrest, if_pos hemp]
        · have h0 : (v.users.filter (fun u => u.id != sock)).isEmpty = false :=
            Bool.eq_false_iff.mpr hemp
          have hpred : (!(stripSock sock v).users.isEmpty) = true := by
            show (!(v.users.filter (fun u => u.id != sock)).isEmpty) = true
            rw [h0]
            rfl
          unfold onDisconnect
          simp only [List.map_cons, List.filter_cons, hpred, if_true]
          rw [if_neg hemp]
          simp [rsGet, List.find?]
      · have hak' : (a == roomId) = false := by simpa using hak
        have hrs' : rsGet rest roomId = some st := by
          simpa [rsGet, List.find?, hak'] using hrs
        have hih := ih roomId hnd' hrs'
        unfold onDisconnect
        unfold onDisconnect at hih
        simp only [List.map_cons, List.filter_cons]
        by_cases hpred : (!(stripSock sock v).users.isEmpty) = true
        · rw [if_pos hpred]
          simpa [rsGet, List.find?, hak'] using hih
        · rw [if_neg hpred]
          exact hih

theorem rsGet_rsDelete_rsSet_self (s : ServerState) (k : String) (v : RoomSt)
    (hnd : keysNodup s) : rsGet (rsDelete (rsSet s k v) k) k = none := by
  induction s with
  | nil => simp [rsSet, rsDelete, rsGet]
  | cons p rest ih =>
      obtain ⟨a, b⟩ := p
      have hnd2 : (a :: rest.map Prod.fst).Nodup := hnd
      have hna : a ∉ rest.map Prod.fst := (List.nodup_cons.mp hnd2).1
      have hnd' : keysNodup rest := (List.nodup_cons.mp hnd2).2
      by_cases hak : a = k
      · subst hak
        simp only [rsSet, beq_self_eq_true, if_true, rsDelete]
        apply rsGet_none_of_forall
        intro q hq hq1
        exact hna (hq1 ▸ List.mem_map_of_mem Prod.fst hq)
      · have hak' : (a == k) = false := by simpa using hak
        simp only [rsSet, rsDelete, hak', Bool.false_eq_true, if_false]
        simpa [rsGet, List.find?, hak'] using ih hnd'

/-- C4 counterexample: a concrete reachable room holds a `pending` bet, yet
after its two participants disconnect the room is gone from the registry —
deletion is not blocked by non-terminal bets. -/
theorem c4_counterexample :
    statusOf (applyEvents initState [.join "s1" "r" "A" none,
        .join "s2" "r" "B" none,
        .createBet "s1" "r" "s2" "Derby" 100 "Home win" "bet1"]) "r" "bet1" =
      some "pending" ∧
    rsGet (applyEvents initState [.join "s1" "r" "A" none,
        .join "s2" "r" "B" none,
        .createBet "s1" "r" "s2" "Derby" 100 "Home win" "bet1",
        .disconnect "s1", .disconnect "s2"]) "r" = none :=
  ⟨by decide, by decide⟩

/-- C4 amended: a room is deleted exactly when its last connected socket
goes away — on `disconnect` the room disappears iff every one of its user
records carries the disconnecting socket id, and on `leaveRoom` iff
additionally the user list was non-empty; the room's bets (pending, active or
otherwise) play no role in the deletion condition. -/
theorem c4_room_deletion_condition (s : ServerState) (sock roomId : String)
    (st : RoomSt) (hnd : keysNodup s) (hrs : rsGet s roomId = some st) :
    (rsGet (onDisconnect sock s) roomId = none ↔
      st.users.filter (fun u => u.id != sock) = []) ∧
    (roomId ≠ "" → (rsGet (leaveRoom sock roomId s) roomId = none ↔
      (st.users ≠ [] ∧ st.users.filter (fun u => u.id != sock) = []))) := by
  constructor
  · rw [rsGet_onDisconnect sock s roomId hnd st hrs]
    by_cases hemp : (st.users.filter (fun u => u.id != sock)).isEmpty
    · simp only [hemp, if_true]
      simp [List.isEmpty_iff.mp hemp]
    · simp only [hemp, Bool.false_eq_true, if_false]
      constructor
      · intro hcon; exact absurd hcon (by simp)
      · intro hcon; exact absurd (by simp [hcon]) hemp
  · intro hrid
    unfold leaveRoom removeFromRoom
    rw [if_neg hrid]
    simp only [hrs]
    by_cases hlen : (st.users.filter (fun u => u.id != sock)).length ≠
        st.users.length
    · rw [if_pos hlen]
      by_cases hemp : (st.users.filter (fun u => u.id != sock)).isEmpty
      · simp only [hemp, if_true]
        have hfe : st.users.filter (fun u => u.id != sock) = [] :=
          List.isEmpty_iff.mp hemp
        have hun : st.users ≠ [] := by
          intro hcon
          rw [hcon] at hlen
          simp at hlen
        simp only [rsGet_rsDelete_rsSet_self s roomId _ hnd]
        simp [hfe, hun]
      · simp only [hemp, Bool.false_eq_true, if_false]
        rw [rsGet_rsSet_self]
        constructor
        · intro hcon; exact absurd hcon (by simp)
        · intro hcon; exact absurd (by simp [hcon.2]) hemp
    · rw [if_neg hlen]
      rw [rsGet_rsSet_self]
      constructor
      · intro hcon; exact absurd hcon (by simp)
      · intro hcon
        rw [not_not] at hlen
        rcases hcon with ⟨hun, hfe⟩
        rw [hfe] at hlen
        exact (hun (List.eq_nil_of_length_eq_zero hlen.symm)).elim

/-- Witness for C4's amended theorem: a one-user room; disconnecting "s1"
deletes it, and the iff's right-hand sides evaluate on the concrete user
list. -/
theorem c4_room_deletion_condition_witness :
    keysNodup (applyEvents initState [.join "s1" "r" "A" none]) ∧
    ((rsGet (onDisconnect "s1" (applyEvents initState [.join "s1" "r" "A" none]))
        "r" = none ↔
      ([{ id := "s1", username := "A", credits := 1000 }] : List User).filter
        (fun u => u.id != "s1") = []) ∧
    (("r" : String) ≠ "" →
      (rsGet (leaveRoom "s1" "r" (applyEvents initState
          [.join "s1" "r" "A" none])) "r" = none ↔
        (([{ id := "s1", username := "A", credits := 1000 }] : List User) ≠ [] ∧
        ([{ id := "s1", username := "A", credits := 1000 }] : List User).filter
          (fun u => u.id != "s1") = [])))) :=
  ⟨by decide,
    c4_room_deletion_condition (applyEvents initState [.join "s1" "r" "A" none])
      "s1" "r" _ (by decide) rfl⟩

/-- C8 counterexample: the text " " is whitespace-only — empty after trimming
— and yet the chatMessage handler broadcasts it verbatim instead of dropping
it: the handler checks only JS falsiness (emptiness) of the text, it never
trims. -/
theorem c8_counterexample :
    (" " : String).data.all Char.isWhitespace = true ∧
    (" " : String) ≠ "" ∧
    chatBroadcast "room1" "alice" " " = some ("room1", "alice", " ") ∧
    chatMessage "sock1" "room1" "alice" " " initState = initState :=
  ⟨by decide, by decide, by decide, rfl⟩

/-- C8 amended: a chatMessage is dropped iff its room key or its text is the
empty string (JS falsiness — no trimming, so whitespace-only text is NOT
dropped); otherwise it is broadcast verbatim, with its sender, to the named
room; and the handler never changes the registry. -/
theorem c8_chat_guard (sock roomId user text : String) (s : ServerState) :
    (chatBroadcast roomId user text = none ↔ (roomId = "" ∨ text = "")) ∧
    (roomId ≠ "" → text ≠ "" →
      chatBroadcast roomId user text = some (roomId, user, text)) ∧
    chatMessage sock roomId user text s = s := by
  refine ⟨?_, ?_, rfl⟩
  · unfold chatBroadcast
    by_cases h : roomId = "" ∨ text = "" <;> simp [h]
  · intro h1 h2
    unfold chatBroadcast
    rw [if_neg (by simp [h1, h2])]

/-- Witness for C8's amended theorem at a concrete non-empty message. -/
theorem c8_chat_guard_witness :
    ("room1" : String) ≠ "" ∧ ("hi" : String) ≠ "" ∧
    chatBroadcast "room1" "alice" "hi" = some ("room1", "alice", "hi") :=
  ⟨by decide, by decide,
    (c8_chat_guard "sock1" "room1" "alice" "hi" initState).2.1 (by decide)
      (by decide)⟩

/-- C9: for two distinct identities exactly one direction of `isInitiator`
holds; the designated initiator is the lexicographically smaller string; and
the client-side rule `shouldInitiate` (final frontend iteration, comparing
usernames) agrees with the server-side rule. Both are pure functions of the
two names, so repeated evaluation is deterministic by construction. -/
theorem c9_initiator_rule (a b : String) (hne : a ≠ b) :
    (isInitiator a b = true ∨ isInitiator b a = true) ∧
    ¬(isInitiator a b = true ∧ isInitiator b a = true) ∧
    (isInitiator a b = true ↔ a < b) ∧
    shouldInitiate a b = isInitiator a b := by
  refine ⟨?_, ?_, ?_, rfl⟩
  · rcases lt_trichotomy a b with h | h | h
    · left; simp [isInitiator, h]
    · exact absurd h hne
    · right; simp [isInitiator, h]
  · rintro ⟨h1, h2⟩
    simp only [isInitiator, decide_eq_true_eq] at h1 h2
    exact absurd (h1.trans h2) (lt_irrefl a)
  · simp [isInitiator]

/-- Witness for C9 at the spec's concrete pair "alice"/"bob". -/
theorem c9_initiator_rule_witness :
    ("alice" : String) ≠ "bob" ∧
    ((isInitiator "alice" "bob" = true ∨ isInitiator "bob" "alice" = true) ∧
    ¬(isInitiator "alice" "bob" = true ∧ isInitiator "bob" "alice" = true) ∧
    (isInitiator "alice" "bob" = true ↔ ("alice" : String) < "bob") ∧
    shouldInitiate "alice" "bob" = isInitiator "alice" "bob") :=
  ⟨by decide, c9_initiator_rule "alice" "bob" (by decide)⟩

/-- Whether an inbound event is a `joinRoom`. -/
def Event.isJoin : Event → Bool
  | .join _ _ _ _ => true
  | _ => false

theorem forall_keys_ne_of_rsGet_none {s : ServerState} {k : String}
    (h : rsGet s k = none) : ∀ p ∈ s, p.1 ≠ k := by
  intro p hp
  unfold rsGet at h
  have hf : s.find? (fun p => p.1 == k) = none := by
    cases hfind : s.find? (fun p => p.1 == k) with
    | none => rfl
    | some q => rw [hfind] at h; cases h
  have := List.find?_eq_none.mp hf p hp
  simpa using this

theorem rsSet_keeps_none {s : ServerState} {k rid : String} {st v : RoomSt}
    (habs : rsGet s k = none) (hrs : rsGet s rid = some st) :
    rsGet (rsSet s rid v) k = none := by
  have hne : k ≠ rid := by
    intro h
    rw [h, hrs] at habs
    cases habs
  rw [rsGet_rsSet_ne _ _ _ _ hne]
  exact habs

theorem removeFromRoom_keeps_none (roomId sock : String) {s : ServerState}
    {k : String} (habs : rsGet s k = none) :
    rsGet (removeFromRoom roomId sock s).1 k = none := by
  unfold removeFromRoom
  split
  · exact habs
  · rename_i st hrs
    simp only
    split
    · split
      · exact rsGet_rsDelete_none _ _ _ (rsSet_keeps_none habs hrs)
      · exact rsSet_keeps_none habs hrs
    · exact rsSet_keeps_none habs hrs

/-- C10: only `joinRoom` ever inserts a room — every non-join event leaves an
absent room key absent, and each of the five room-addressed handlers (chat,
video readiness, create/accept/cancel bet) leaves the whole registry
untouched when its room key is not present. -/
theorem c10_only_join_creates_rooms (s : ServerState) (k : String)
    (habs : rsGet s k = none) :
    (∀ e : Event, e.isJoin = false → rsGet (applyEvent s e) k = none) ∧
    (∀ sock user text, applyEvent s (.chat sock k user text) = s) ∧
    (∀ sock, applyEvent s (.vready sock k) = s) ∧
    (∀ sock tgt title stake pick bid,
      applyEvent s (.createBet sock k tgt title stake pick bid) = s) ∧
    (∀ sock bid pick stake, applyEvent s (.acceptBet sock k bid pick stake) = s) ∧
    (∀ sock bid, applyEvent s (.cancelBet sock k bid) = s) := by
  refine ⟨?_, ?_, ?_, ?_, ?_, ?_⟩
  · intro e hj
    cases e with
    | join sock rid uname m => simp [Event.isJoin] at hj
    | leave sock rid =>
        show rsGet (leaveRoom sock rid s) k = none
        unfold leaveRoom
        split
        · exact habs
        · exact removeFromRoom_keeps_none rid sock habs
    | chat sock rid user text => exact habs
    | vready sock rid =>
        show rsGet (videoReady sock rid s) k = none
        unfold videoReady
        split
        · exact habs
        · rename_i st hrs
          split
          · exact habs
          · exact rsSet_keeps_none habs hrs
    | createBet sock rid tgt title stake pick bid =>
        show rsGet (createBetOffer sock rid tgt title stake pick bid s) k = none
        unfold createBetOffer
        split
        · exact habs
        · rename_i st hrs
          split
          · exact rsSet_keeps_none habs hrs
          · exact habs
    | acceptBet sock rid bid pick stake =>
        show rsGet (acceptBetOffer sock rid bid pick stake s) k = none
        unfold acceptBetOffer
        split
        · exact habs
        · rename_i st hrs
          split
          · exact habs
          · split
            · exact habs
            · split
              · exact habs
              · exact rsSet_keeps_none habs hrs
    | cancelBet sock rid bid =>
        show rsGet (cancelBetOffer sock rid bid s) k = none
        unfold cancelBetOffer
        split
        · exact habs
        · rename_i st hrs
          split
          · exact habs
          · split
            · exact habs
            · split
              · exact habs
              · exact rsSet_keeps_none habs hrs
    | signal sock toId => exact habs
    | disconnect sock =>
        show rsGet (onDisconnect sock s) k = none
        apply rsGet_none_of_forall
        intro q hq
        rcases mem_onDisconnect_keys hq with ⟨p, hp, hqp⟩
        rw [hqp]
        exact forall_keys_ne_of_rsGet_none habs p hp
  · intro sock user text
    rfl
  · intro sock
    show videoReady sock k s = s
    unfold videoReady
    rw [habs]
  · intro sock tgt title stake pick bid
    show createBetOffer sock k tgt title stake pick bid s = s
    unfold createBetOffer
    rw [habs]
  · intro sock bid pick stake
    show acceptBetOffer sock k bid pick stake s = s
    unfold acceptBetOffer
    rw [habs]
  · intro sock bid
    show cancelBetOffer sock k bid s = s
    unfold cancelBetOffer
    rw [habs]

/-- Witness for C10: the registry holding only room "r" has no room "ghost";
no non-join event materialises it. -/
theorem c10_only_join_creates_rooms_witness :
    rsGet (applyEvents initState [.join "s1" "r" "A" none]) "ghost" = none ∧
    ((∀ e : Event, e.isJoin = false →
      rsGet (applyEvent (applyEvents initState [.join "s1" "r" "A" none]) e)
        "ghost" = none) ∧
    (∀ sock user text, applyEvent (applyEvents initState
      [.join "s1" "r" "A" none]) (.chat sock "ghost" user text) =
      applyEvents initState [.join "s1" "r" "A" none]) ∧
    (∀ sock, applyEvent (applyEvents initState [.join "s1" "r" "A" none])
      (.vready sock "ghost") = applyEvents initState [.join "s1" "r" "A" none]) ∧
    (∀ sock tgt title stake pick bid,
      applyEvent (applyEvents initState [.join "s1" "r" "A" none])
        (.createBet sock "ghost" tgt title stake pick bid) =
        applyEvents initState [.join "s1" "r" "A" none]) ∧
    (∀ sock bid pick stake,
      applyEvent (applyEvents initState [.join "s1" "r" "A" none])
        (.acceptBet sock "ghost" bid pick stake) =
        applyEvents initState [.join "s1" "r" "A" none]) ∧
    (∀ sock bid, applyEvent (applyEvents initState [.join "s1" "r" "A" none])
      (.cancelBet sock "ghost" bid) =
      applyEvents initState [.join "s1" "r" "A" none])) :=
  ⟨by decide,
    c10_only_join_creates_rooms (applyEvents initState [.join "s1" "r" "A" none])
      "ghost" (by decide)⟩

/-- C1: one auto-settlement tick over the registry — for every room with an
associated match and at least one `active` bet, when the score lookup reports
the match finished (per the finished-status tokens) with both scores present
and numeric, every `active` bet transitions to `settled` with a recorded
winner-name and a frozen result snapshot (external status, final score,
winning pick), while bets in any other status are unchanged. -/
theorem c1_settlement_settles_active_bets
    (lookup : MatchDesc → Option GameRecord) (s : ServerState) (roomId : String)
    (st : RoomSt) (m : MatchDesc) (g : GameRecord) (h a : Int)
    (hrs : rsGet s roomId = some st) (hm : st.matchInfo = some m)
    (hl : lookup m = some g) (hfin : isFinishedStatus g.status = true)
    (hh : g.homeScore = some h) (ha : g.awayScore = some a)
    (hact : st.bets.any (fun b => b.status == "active") = true) :
    ∃ outcome, computeOutcome g = some outcome ∧
      ∃ st', rsGet (settleTick lookup s) roomId = some st' ∧
        st'.bets.length = st.bets.length ∧
        ∀ (i : Nat) (b : Bet), st.bets[i]? = some b →
          (b.status = "active" →
            st'.bets[i]? = some (settleBet g outcome b) ∧
            (settleBet g outcome b).status = "settled" ∧
            (settleBet g outcome b).winnerName = resolveWinner b outcome ∧
            (settleBet g outcome b).result =
              some { extStatus := g.status, homeScore := g.homeScore,
                     awayScore := g.awayScore, winningPick := outcome }) ∧
          (b.status ≠ "active" → st'.bets[i]? = some b) := by
  obtain ⟨outcome, ho⟩ : ∃ o, computeOutcome g = some o := by
    unfold computeOutcome
    rw [hh, ha]
    show ∃ o, (if a > h then some (g.awayTeam ++ " win")
      else if h > a then some (g.homeTeam ++ " win") else some "draw") = some o
    by_cases h1 : a > h
    · exact ⟨_, by rw [if_pos h1]⟩
    · by_cases h2 : h > a
      · exact ⟨_, by rw [if_neg h1, if_pos h2]⟩
      · exact ⟨_, by rw [if_neg h1, if_neg h2]⟩
  refine ⟨outcome, ho, ?_⟩
  have hmap : rsGet (settleTick lookup s) roomId = some (settleRoom lookup st) := by
    unfold settleTick
    rw [rsGet_mapVal, hrs]
    rfl
  have hroom : settleRoom lookup st =
      { st with bets := st.bets.map (settleIfActive g outcome) } := by
    unfold settleRoom
    simp only [hact, Bool.not_true, Bool.false_eq_true, if_false, hm, hl, hfin,
      ho]
  refine ⟨_, hmap, ?_, ?_⟩
  · rw [hroom]
    exact List.length_map _ _
  · intro i b hb
    constructor
    · intro hbact
      refine ⟨?_, rfl, rfl, rfl⟩
      rw [hroom]
      show (st.bets.map (settleIfActive g outcome))[i]? = _
      rw [List.getElem?_map, hb]
      simp [settleIfActive, hbact]
    · intro hbact
      rw [hroom]
      show (st.bets.map (settleIfActive g outcome))[i]? = _
      rw [List.getElem?_map, hb]
      have hfalse : (b.status == "active") = false := by
        simpa using hbact
      simp [settleIfActive, hfalse]

/-- Witness for C1: the spec's scenario — room "r" is about match 42, holds
one `active` bet, and the lookup reports "Full Time" with scores 2:1; the
settlement tick produces a room whose bet list still has length 1 and a
computable outcome. -/
theorem c1_settlement_settles_active_bets_witness :
    isFinishedStatus "Full Time" = true ∧
    (∃ outcome, computeOutcome
        { externalId := "42", homeTeam := "Celtic", awayTeam := "Rangers",
          status := "Full Time", homeScore := some 2, awayScore := some 1 } =
        some outcome ∧
      ∃ st', rsGet (settleTick
          (fun md => if md.externalId == "42" then
            some { externalId := "42", homeTeam := "Celtic",
                   awayTeam := "Rangers", status := "Full Time",
                   homeScore := some 2, awayScore := some 1 }
            else none)
          (applyEvents initState
            [.join "s1" "r" "A" (some { externalId := "42" }),
             .join "s2" "r" "B" none,
             .createBet "s1" "r" "s2" "Derby" 100 "Celtic win" "bet1",
             .acceptBet "s2" "r" "bet1" "Rangers win" 100])) "r" = some st' ∧
        st'.bets.length = 1) :=
  ⟨by decide,
    match c1_settlement_settles_active_bets
      (fun md => if md.externalId == "42" then
        some { externalId := "42", homeTeam := "Celtic",
               awayTeam := "Rangers", status := "Full Time",
               homeScore := some 2, awayScore := some 1 }
        else none)
      (applyEvents initState
        [.join "s1" "r" "A" (some { externalId := "42" }),
         .join "s2" "r" "B" none,
         .createBet "s1" "r" "s2" "Derby" 100 "Celtic win" "bet1",
         .acceptBet "s2" "r" "bet1" "Rangers win" 100])
      "r" _ _ _ 2 1 rfl rfl rfl (by decide) rfl rfl (by decide) with
    | ⟨o, ho, st', h1, h2, _⟩ => ⟨o, ho, st', h1, h2⟩⟩

theorem requestCancelBet_creator_step (b : Bet)
    (hne : b.creatorName ≠ b.targetName)
    (hst : b.status = "active" ∨ b.status = "cancel_pending")
    (ht : b.agreeTarget = false) :
    (requestCancelBet b.creatorName b).status = "cancel_pending" ∧
    (requestCancelBet b.creatorName b).agreeCreator = true ∧
    (requestCancelBet b.creatorName b).agreeTarget = false ∧
    (requestCancelBet b.creatorName b).creatorName = b.creatorName ∧
    (requestCancelBet b.creatorName b).targetName = b.targetName := by
  rcases hst with h | h <;>
    simp [requestCancelBet, h, ht]

theorem requestCancelBet_target_step (b : Bet)
    (hne : b.creatorName ≠ b.targetName)
    (hst : b.status = "active" ∨ b.status = "cancel_pending")
    (hc : b.agreeCreator = false) :
    (requestCancelBet b.targetName b).status = "cancel_pending" ∧
    (requestCancelBet b.targetName b).agreeTarget = true ∧
    (requestCancelBet b.targetName b).agreeCreator = false ∧
    (requestCancelBet b.targetName b).creatorName = b.creatorName ∧
    (requestCancelBet b.targetName b).targetName = b.targetName := by
  have hne' : b.targetName ≠ b.creatorName := Ne.symm hne
  rcases hst with h | h <;>
    simp [requestCancelBet, h, hc, hne']

theorem requestCancelBet_second_target (b : Bet)
    (hne : b.creatorName ≠ b.targetName) (hst : b.status = "cancel_pending")
    (hc : b.agreeCreator = true) :
    (requestCancelBet b.targetName b).status = "cancelled" := by
  have hne' : b.targetName ≠ b.creatorName := Ne.symm hne
  simp [requestCancelBet, hst, hc, hne']

theorem requestCancelBet_second_creator (b : Bet)
    (hne : b.creatorName ≠ b.targetName) (hst : b.status = "cancel_pending")
    (ht : b.agreeTarget = true) :
    (requestCancelBet b.creatorName b).status = "cancelled" := by
  simp [requestCancelBet, hst, ht]

theorem creatorOnly_fold (rs : List String) : ∀ b : Bet,
    b.creatorName ≠ b.targetName →
    (b.status = "active" ∨ b.status = "cancel_pending") →
    b.agreeTarget = false →
    (∀ r ∈ rs, r = b.creatorName) →
    ((rs.foldl (fun acc r => requestCancelBet r acc) b).status = "active" ∨
     (rs.foldl (fun acc r => requestCancelBet r acc) b).status =
       "cancel_pending") := by
  induction rs with
  | nil => intro b h1 h2 h3 _; simpa using h2
  | cons r rs ih =>
      intro b h1 h2 h3 h4
      have hr : r = b.creatorName := h4 r (List.mem_cons_self r rs)
      subst hr
      obtain ⟨hs, _, hT, hC, hTn⟩ := requestCancelBet_creator_step b h1 h2 h3
      simp only [List.foldl_cons]
      apply ih
      · rw [hC, hTn]; exact h1
      · right; exact hs
      · exact hT
      · intro r' hr'
        rw [hC]; exact h4 r' (List.mem_cons_of_mem _ hr')

theorem targetOnly_fold (rs : List String) : ∀ b : Bet,
    b.creatorName ≠ b.targetName →
    (b.status = "active" ∨ b.status = "cancel_pending") →
    b.agreeCreator = false →
    (∀ r ∈ rs, r = b.targetName) →
    ((rs.foldl (fun acc r => requestCancelBet r acc) b).status = "active" ∨
     (rs.foldl (fun acc r => requestCancelBet r acc) b).status =
       "cancel_pending") := by
  induction rs with
  | nil => intro b h1 h2 h3 _; simpa using h2
  | cons r rs ih =>
      intro b h1 h2 h3 h4
      have hr : r = b.targetName := h4 r (List.mem_cons_self r rs)
      subst hr
      obtain ⟨hs, _, hC, hCn, hTn⟩ := requestCancelBet_target_step b h1 h2 h3
      simp only [List.foldl_cons]
      apply ih
      · rw [hCn, hTn]; exact h1
      · right; exact hs
      · exact hC
      · intro r' hr'
        rw [hTn]; exact h4 r' (List.mem_cons_of_mem _ hr')

/-- C2: on an `active` bet between two distinct parties with no prior consent,
a cancel request from one side records that side's consent and leaves the bet
`cancel_pending`; the bet becomes `cancelled` exactly after the other side has
also requested cancellation (in either order); and no sequence of requests
coming from one single side alone ever cancels it. -/
theorem c2_mutual_consent_cancellation (b : Bet) (hact : b.status = "active")
    (hc : b.agreeCreator = false) (ht : b.agreeTarget = false)
    (hne : b.creatorName ≠ b.targetName) :
    ((requestCancelBet b.creatorName b).status = "cancel_pending" ∧
      (requestCancelBet b.creatorName b).agreeCreator = true) ∧
    ((requestCancelBet b.targetName b).status = "cancel_pending" ∧
      (requestCancelBet b.targetName b).agreeTarget = true) ∧
    (requestCancelBet b.targetName (requestCancelBet b.creatorName b)).status =
      "cancelled" ∧
    (requestCancelBet b.creatorName (requestCancelBet b.targetName b)).status =
      "cancelled" ∧
    (∀ rs : List String, (∀ r ∈ rs, r = b.creatorName) →
      (rs.foldl (fun acc r => requestCancelBet r acc) b).status ≠ "cancelled") ∧
    (∀ rs : List String, (∀ r ∈ rs, r = b.targetName) →
      (rs.foldl (fun acc r => requestCancelBet r acc) b).status ≠ "cancelled") := by
  obtain ⟨c1s, c1c, c1t, c1cn, c1tn⟩ :=
    requestCancelBet_creator_step b hne (Or.inl hact) ht
  obtain ⟨t1s, t1t, t1c, t1cn, t1tn⟩ :=
    requestCancelBet_target_step b hne (Or.inl hact) hc
  refine ⟨⟨c1s, c1c⟩, ⟨t1s, t1t⟩, ?_, ?_, ?_, ?_⟩
  · have := requestCancelBet_second_target (requestCancelBet b.creatorName b)
      (by rw [c1cn, c1tn]; exact hne) c1s c1c
    rw [c1tn] at this
    exact this
  · have := requestCancelBet_second_creator (requestCancelBet b.targetName b)
      (by rw [t1cn, t1tn]; exact hne) t1s t1t
    rw [t1cn] at this
    exact this
  · intro rs hrs
    rcases creatorOnly_fold rs b hne (Or.inl hact) ht hrs with h | h <;>
      simp [h]
  · intro rs hrs
    rcases targetOnly_fold rs b hne (Or.inl hact) hc hrs with h | h <;>
      simp [h]

/-- Witness for C2 at a concrete active bet between "A" and "B". -/
theorem c2_mutual_consent_cancellation_witness :
    (let b : Bet :=
      { id := "bet1", status := "active", title := "Derby", creatorId := "s1",
        creatorName := "A", targetId := "s2", targetName := "B",
        creatorStake := 100, targetStake := 100, creatorPick := "Celtic win",
        targetPick := some "Rangers win", winnerName := "", result := none,
        agreeCreator := false, agreeTarget := false }
    b.status = "active" ∧ b.agreeCreator = false ∧ b.agreeTarget = false ∧
    b.creatorName ≠ b.targetName ∧
    (((requestCancelBet b.creatorName b).status = "cancel_pending" ∧
      (requestCancelBet b.creatorName b).agreeCreator = true) ∧
    ((requestCancelBet b.targetName b).status = "cancel_pending" ∧
      (requestCancelBet b.targetName b).agreeTarget = true) ∧
    (requestCancelBet b.targetName (requestCancelBet b.creatorName b)).status =
      "cancelled" ∧
    (requestCancelBet b.creatorName (requestCancelBet b.targetName b)).status =
      "cancelled" ∧
    (∀ rs : List String, (∀ r ∈ rs, r = b.creatorName) →
      (rs.foldl (fun acc r => requestCancelBet r acc) b).status ≠ "cancelled") ∧
    (∀ rs : List String, (∀ r ∈ rs, r = b.targetName) →
      (rs.foldl (fun acc r => requestCancelBet r acc) b).status ≠ "cancelled"))) :=
  ⟨rfl, rfl, rfl, by decide,
    c2_mutual_consent_cancellation
      { id := "bet1", status := "active", title := "Derby", creatorId := "s1",
        creatorName := "A", targetId := "s2", targetName := "B",
        creatorStake := 100, targetStake := 100, creatorPick := "Celtic win",
        targetPick := some "Rangers win", winnerName := "", result := none,
        agreeCreator := false, agreeTarget := false }
      rfl rfl rfl (by decide)⟩
